import Mathlib

/-!
# Verification of the query-classification-and-reference-aggregation pipeline

Shallow embedding of `src/app.py` (the debate-check-v1 orchestration script).
Strings are modelled as `List Char`; Python's `re` character classes `\d`,
`\s`, `\w` and `str.lower`/`str.strip` are modelled over their ASCII ranges
(the program's vocabularies and patterns are all ASCII).
-/

namespace DebateCheck

/-- ASCII decimal digit, Python regex `\d` (ASCII range). -/
def isDigitC (c : Char) : Bool := '0' ≤ c && c ≤ '9'

/-- ASCII whitespace, Python regex `\s` / `str.strip` default (ASCII range):
space, tab, newline, carriage return, form feed, vertical tab. -/
def isSpaceC (c : Char) : Bool :=
  c = ' ' || c = '\t' || c = '\n' || c = '\x0d' || c = '\x0c' || c = '\x0b'

/-- ASCII letter, regex class `[A-Za-z]`. -/
def isLetterC (c : Char) : Bool := ('A' ≤ c && c ≤ 'Z') || ('a' ≤ c && c ≤ 'z')

/-- Python regex word character `\w` (ASCII range): letters, digits, underscore. -/
def isWordC (c : Char) : Bool := isLetterC c || isDigitC c || c = '_'

/-- `str.lower` on one character (ASCII range). -/
def toLowerC (c : Char) : Char :=
  if 'A' ≤ c && c ≤ 'Z' then Char.ofNat (c.toNat + 32) else c

/-- `str.lower`, mapped over the characters. -/
def pyLower (l : List Char) : List Char := l.map toLowerC

/-- `str.strip()`: drop leading and trailing whitespace. -/
def pyStrip (l : List Char) : List Char :=
  ((l.dropWhile isSpaceC).reverse.dropWhile isSpaceC).reverse

/-- `str.strip(".")`: drop leading and trailing `'.'` characters. -/
def stripDots (l : List Char) : List Char :=
  ((l.dropWhile (· = '.')).reverse.dropWhile (· = '.')).reverse

/-- Arithmetic operator class `[\+\-\*/\^]` of `MATH_HINT`. -/
def isOpC (c : Char) : Bool := c = '+' || c = '-' || c = '*' || c = '/' || c = '^'

/-! ## Case-insensitive literal matching and word boundaries

`ciMatch w l` matches the already-lower-cased literal `w` case-insensitively
at the front of `l`, returning the remainder on success — the backbone of
the vocabulary alternatives of the hint regexes (all compiled with `re.I`).
-/

def ciMatch : List Char → List Char → Option (List Char)
  | [], l => some l
  | _ :: _, [] => none
  | a :: w, c :: l => if toLowerC c = a then ciMatch w l else none

/-- `occAt w lb rb prev l` matches the lower-cased literal `w`
case-insensitively at the current position (`l` is the suffix starting
there, `prev` tells whether the preceding character is a word character).
`lb`/`rb` demand a `\b` word boundary on the left/right; the vocabulary
words all start and end with letters, so the boundary on the left means
"previous character is not a word character" and on the right "next
character, if any, is not a word character". -/
def occAt (w : List Char) (lb rb : Bool) (prev : Bool) (l : List Char) : Bool :=
  (!lb || !prev) &&
    (match ciMatch w l with
     | none => false
     | some rest =>
       !rb || (match rest with
               | [] => true
               | c :: _ => !isWordC c))

/-- `re.search` position scan: try `atPos` at every position of the string,
threading whether the character before the position is a word character
(for `\b` checks). The scan at the very end of the string is omitted: every
pattern alternative below consumes at least one character. -/
def searchB (atPos : Bool → List Char → Bool) : Bool → List Char → Bool
  | _, [] => false
  | prev, c :: rest => atPos prev (c :: rest) || searchB atPos (isWordC c) rest

/-! ## `MATH_HINT` — `(\d+\s*[\+\-\*/\^]\s*\d+)|\bsolve\b|\bevaluate\b|\bderivative\b|\bintegral\b` -/

/-- Final step of the numeric-expression pattern: the remainder must start
with a digit (`\d+` needs at least one). -/
def digitStep : List Char → Bool
  | [] => false
  | d :: _ => isDigitC d

/-- Operator-and-second-number step of the numeric-expression pattern:
an operator, greedy `\s*`, then at least one digit. -/
def opStep : List Char → Bool
  | [] => false
  | o :: l3 => isOpC o && digitStep (l3.dropWhile isSpaceC)

/-- The numeric-expression alternative `\d+\s*[\+\-\*/\^]\s*\d+` matched at
the current position. Greedy matching is deterministic here: a shorter
digit run leaves a digit where `\s*`/the operator class must match, and a
shorter space run leaves a space where the operator/digit must match. -/
def numExprAt : List Char → Bool
  | [] => false
  | c :: rest => isDigitC c && opStep ((rest.dropWhile isDigitC).dropWhile isSpaceC)

/-- One scan position of `MATH_HINT`. -/
def mathAt (prev : Bool) (l : List Char) : Bool :=
  numExprAt l ||
  occAt "solve".data true true prev l ||
  occAt "evaluate".data true true prev l ||
  occAt "derivative".data true true prev l ||
  occAt "integral".data true true prev l

/-- `looks_like_math(q)` = `bool(MATH_HINT.search(q))`. -/
def looks_like_math (q : String) : Bool := searchB mathAt false q.data

/-! ## The news hint — `re.search(r"\bnews|headline|trending|today\b", user_q, re.I)`

Note the alternation precedence: the `\b` binds only to `news` and the
trailing `\b` only to `today`; `headline` and `trending` are bare
substring alternatives. -/

/-- One scan position of the news hint regex. -/
def newsAt (prev : Bool) (l : List Char) : Bool :=
  occAt "news".data true false prev l ||
  occAt "headline".data false false prev l ||
  occAt "trending".data false false prev l ||
  occAt "today".data false true prev l

/-- The news gate of `build_context_snippet`:
`re.search(r"\bnews|headline|trending|today\b", user_q, re.I)`. -/
def newsIntent (q : String) : Bool := searchB newsAt false q.data

/-! ## `WEATHER_HINT` — `\b(weather|temperature|forecast)\b` -/

/-- One scan position of `WEATHER_HINT`. -/
def weatherAt (prev : Bool) (l : List Char) : Bool :=
  occAt "weather".data true true prev l ||
  occAt "temperature".data true true prev l ||
  occAt "forecast".data true true prev l

/-- `WEATHER_HINT.search(q)` as a Boolean. -/
def weatherHint (q : List Char) : Bool := searchB weatherAt false q

/-! ## `CITY_FROM_WEATHER` — `(?:in|for)\s+([A-Za-z][A-Za-z\s\.\-']{1,40})$` -/

/-- The character class `[A-Za-z\s\.\-']` of the location phrase. -/
def isAllowedCityC (c : Char) : Bool :=
  isLetterC c || isSpaceC c || c = '.' || c = '-' || c = '\x27'

/-- First-match-wins choice between two alternatives (Python falls through
to the next alternative only when the previous one failed). -/
def firstSome (a b : Option (List Char)) : Option (List Char) :=
  match a with
  | some g => some g
  | none => b

/-- Match `(?:in|for)` case-insensitively at the front, returning the rest.
`in` is tried before `for` per alternation order (both can never match at
the same position since they start with different letters). -/
def kwMatch (l : List Char) : Option (List Char) :=
  firstSome (ciMatch "in".data l) (ciMatch "for".data l)

/-- Attempt the whole `CITY_FROM_WEATHER` pattern at the current position,
returning the captured group. After the keyword, `\s+` greedily takes all
whitespace (deterministic: a shorter run leaves a space where `[A-Za-z]`
must match); the group then must cover the entire remaining string (the
pattern is `$`-anchored), so it matches exactly when the remainder is a
letter followed by 1–40 allowed characters. -/
def cityTail : List Char → Option (List Char)
  | [] => none
  | c :: rest =>
    if isLetterC c && rest.all isAllowedCityC &&
        1 ≤ rest.length && rest.length ≤ 40 then
      some (c :: rest)
    else none

/-- After the keyword: `\s+` must consume at least one character, then the
anchored group must cover the whole remainder. -/
def cityAfterKw (afterKw : List Char) : Option (List Char) :=
  if afterKw.takeWhile isSpaceC = [] then none
  else cityTail (afterKw.dropWhile isSpaceC)

def cityAt (l : List Char) : Option (List Char) :=
  match kwMatch l with
  | none => none
  | some afterKw => cityAfterKw afterKw

/-- `CITY_FROM_WEATHER.search`: leftmost position wins. -/
def citySearch : List Char → Option (List Char)
  | [] => none
  | c :: rest => firstSome (cityAt (c :: rest)) (citySearch rest)

/-- `should_check_weather(q)` from `src/app.py`. -/
def should_check_weather (q : String) : Option String :=
  if !weatherHint q.data then none
  else
    match citySearch (pyStrip q.data) with
    | some g => some (String.mk (stripDots (pyStrip g)))
    | none =>
      if pyLower (pyStrip q.data) = "weather".data ∨
         pyLower (pyStrip q.data) = "forecast".data ∨
         pyLower (pyStrip q.data) = "temperature".data then
        some "London"
      else none

/-! ## Pipeline embedding

Network calls are modelled by oracles supplied in an `Env`; each oracle
returns the provider's abstract response (success data, provider-reported
error, or a transport failure that Python would raise inside the wrapper's
`try` block). Python exceptions that can escape a function are modelled
with `Except PyErr`. -/

/-- A Python exception escaping a function of the pipeline. -/
inductive PyErr where
  | nameError (missing : String)
  | keyError (key : String)
  deriving DecidableEq, Repr

/-- A value stored in the reference dict: a string or a list of strings. -/
inductive RefVal where
  | s (v : String)
  | l (v : List String)
  deriving DecidableEq, Repr

/-- A Python dict modelled as an association list in insertion order
(the program never inserts the same key twice). -/
abbrev RefDict := List (String × RefVal)

/-- Key lookup / the `in` test on a dict. -/
def dictGet (k : String) : RefDict → Option RefVal
  | [] => none
  | (k', v) :: rest => if k' = k then some v else dictGet k rest

/-- The query parameters `google_cse_search` sends to the provider. -/
structure GoogleParams where
  q : String
  num : Int
  safe : String
  deriving DecidableEq, Repr

/-- Abstract response of the general-search provider, as seen by the body
of the `try` block of `google_cse_search`. -/
inductive GoogleResp where
  | fail (e : String)
  | apiError (msg : String)
  | items (its : List (String × String))

/-- Abstract response of the weather provider (the temperature is carried
as its rendered text, side-stepping floating point). -/
inductive WeatherResp where
  | fail (e : String)
  | notFound (msg : String)
  | ok (temp : String) (desc : String)

/-- Abstract response of the headlines provider: failure, provider error,
or articles as (title, source-name, url) triples. -/
inductive NewsResp where
  | fail (e : String)
  | apiError (msg : String)
  | articles (arts : List (String × String × String))

/-- Abstract response of the computation provider: failure, unsuccessful
query, or the pod list as (title, first-subpod-plaintext-if-truthy) pairs. -/
inductive WolframResp where
  | fail (e : String)
  | notSuccess
  | pods (ps : List (String × Option String))

/-- Credentials and network oracles of one run. -/
structure Env where
  openrouterKey : Option String
  googleKeys : Bool
  wolframKey : Option String
  openweatherKey : Bool
  newsKey : Bool
  googleNet : GoogleParams → GoogleResp
  weatherNet : String → WeatherResp
  newsNet : String × Int → NewsResp
  wolframNet : String → WolframResp
  openrouterNet : String → String → Except String String

instance : Inhabited Env :=
  ⟨⟨none, false, none, false, false,
    fun _ => GoogleResp.fail "", fun _ => WeatherResp.fail "",
    fun _ => NewsResp.fail "", fun _ => WolframResp.fail "",
    fun _ _ => Except.error ""⟩⟩

/-- `ask_openrouter` from `src/app.py`. The second component counts the
invocations of the chat-completion collaborator (network calls made). -/
def ask_openrouter (key : Option String) (net : String → String → Except String String)
    (system_prompt user_prompt : String) : String × Nat :=
  match key with
  | none => ("❌ Missing API key: OPENROUTER_API_KEY", 0)
  | some _ =>
    match net system_prompt user_prompt with
    | Except.ok content => (content, 1)
    | Except.error e => ("❌ OpenRouter error: " ++ e, 1)

/-- The parameter record built by `google_cse_search`:
`"num": max(1, min(num, 10))`, `"safe": "active"`. -/
def google_cse_params (query : String) (num : Int) : GoogleParams :=
  { q := query, num := max 1 (min num 10), safe := "active" }

/-- `google_cse_search` from `src/app.py`. -/
def google_cse_search (hasKeys : Bool) (net : GoogleParams → GoogleResp)
    (query : String) (num : Int) : List String :=
  if !hasKeys then ["⚠️ Skipped (missing GOOGLE_API_KEY or GOOGLE_CSE_ID)"]
  else
    match net (google_cse_params query num) with
    | GoogleResp.fail e => ["❌ Google Search error: " ++ e]
    | GoogleResp.apiError m => ["❌ Google API error: " ++ m]
    | GoogleResp.items [] => ["ℹ️ Google: no results"]
    | GoogleResp.items its => its.map (fun it => it.1 ++ " - " ++ it.2)

/-- `openweather` from `src/app.py`. -/
def openweather (hasKey : Bool) (net : String → WeatherResp) (city : String) : String :=
  if !hasKey then "⚠️ Skipped (missing OPENWEATHER_API_KEY)"
  else
    match net city with
    | WeatherResp.fail e => "❌ Weather error: " ++ e
    | WeatherResp.notFound m => "ℹ️ Weather: " ++ m
    | WeatherResp.ok t d => city ++ ": " ++ t ++ "°C, " ++ d

/-- `news_top` from `src/app.py` (`pageSize` clamp, `articles[:limit]`,
`out or ["ℹ️ No headlines"]`). -/
def news_top (hasKey : Bool) (net : String × Int → NewsResp)
    (country : String) (limit : Int) : List String :=
  if !hasKey then ["⚠️ Skipped (missing NEWS_API_KEY)"]
  else
    match net (country, max 1 (min limit 20)) with
    | NewsResp.fail e => ["❌ News API error: " ++ e]
    | NewsResp.apiError m => ["❌ News API error: " ++ m]
    | NewsResp.articles arts =>
      let out := (arts.take limit.toNat).map (fun a => a.1 ++ " - " ++ a.2.1 ++ " - " ++ a.2.2)
      if out = [] then ["ℹ️ No headlines"] else out

/-- Exact (case-sensitive) literal match at the front, returning the rest. -/
def exMatch : List Char → List Char → Option (List Char)
  | [], l => some l
  | _ :: _, [] => none
  | a :: w, c :: l => if c = a then exMatch w l else none

/-- One filler alternative of `re.sub(r"^(ok|hey|please)\s+", "", query)`:
the keyword must be followed by at least one whitespace character, and the
keyword with the whitespace run is removed. -/
def fillerStrip (w : List Char) (l : List Char) : Option (List Char) :=
  match exMatch w l with
  | none => none
  | some rest =>
    match rest.dropWhile isSpaceC with
    | r => if (rest.takeWhile isSpaceC) = [] then none else some r

/-- `clean_query` from `src/app.py`: lower-case, strip, then drop one
leading filler word (`ok`, `hey`, `please`) with its trailing whitespace. -/
def clean_query (query : String) : String :=
  let l := pyStrip (pyLower query.data)
  match fillerStrip "ok".data l with
  | some r => String.mk r
  | none =>
    match fillerStrip "hey".data l with
    | some r => String.mk r
    | none =>
      match fillerStrip "please".data l with
      | some r => String.mk r
      | none => String.mk l

/-- First pod titled `result` (case-insensitive) whose first subpod has
truthy plaintext; pods with the right title but no truthy plaintext are
skipped (the loop continues). -/
def findResultPod : List (String × Option String) → Option String
  | [] => none
  | (t, p) :: rest =>
    if pyLower t.data = "result".data then
      match p with
      | some v => some v
      | none => findResultPod rest
    else findResultPod rest

/-- First pod whose first subpod has truthy plaintext. -/
def firstTruthy : List (String × Option String) → Option String
  | [] => none
  | (_, some v) :: _ => some v
  | (_, none) :: rest => firstTruthy rest

/-- `query_wolfram_alpha` from `src/app.py`. The credential is read with
`st.secrets["WOLFRAM_APP_ID"]` *before* the `try` block, so a missing
credential raises (modelled as `KeyError`); everything after that point is
inside the `try` and returns a string. -/
def query_wolfram_alpha (wolframKey : Option String) (net : String → WolframResp)
    (query : String) : Except PyErr String :=
  match wolframKey with
  | none => Except.error (PyErr.keyError "WOLFRAM_APP_ID")
  | some _ =>
    Except.ok
      (match net (clean_query query) with
       | WolframResp.fail e => "⚠️ Wolfram Alpha error: " ++ e
       | WolframResp.notSuccess => "Wolfram Alpha could not compute an answer."
       | WolframResp.pods ps =>
         match findResultPod ps with
         | some v => v
         | none =>
           match firstTruthy ps with
           | some v => v
           | none => "No readable answer found from Wolfram Alpha.")

/-- `build_context_snippet` from `src/app.py`. The math branch executes
`refs["wolfram"] = wolfram_compute(user_q)`, but no definition or import
of the name `wolfram_compute` exists anywhere in `app.py` (the defined
wrapper is `query_wolfram_alpha`), so Python raises `NameError` at that
call site; the embedding surfaces this as `Except.error`. -/
def build_context_snippet (env : Env) (user_q : String) : Except PyErr RefDict :=
  let refs1 : RefDict :=
    [("google", RefVal.l (google_cse_search env.googleKeys env.googleNet user_q 5))]
  if looks_like_math user_q then
    Except.error (PyErr.nameError "wolfram_compute")
  else
    let refs2 : RefDict :=
      match should_check_weather user_q with
      | some city =>
        refs1 ++ [("weather", RefVal.s (openweather env.openweatherKey env.weatherNet city))]
      | none => refs1
    let refs3 : RefDict :=
      if newsIntent user_q then
        refs2 ++ [("news", RefVal.l (news_top env.newsKey env.newsNet "us" 5))]
      else refs2
    Except.ok refs3

/-- Python `repr` of a string, modelled for strings without quotes or
escape-worthy characters (how a list value would print in the scalar
branch of the composer; the program only ever has list values where the
composer takes the list branch). -/
def pyRepr (s : String) : String := "\x27" ++ s ++ "\x27"

/-- Python str() of a dict value as interpolated by the composer. -/
def pyStr : RefVal → String
  | RefVal.s v => v
  | RefVal.l vs => "[" ++ String.intercalate ", " (vs.map pyRepr) ++ "]"

/-- `render_refs` from `src/app.py`: fixed key order wolfram, weather,
news, google; news lists capped to the first 3 items, google lists to the
first 5, each item on its own indented line. -/
def render_refs (d : RefDict) : String :=
  let lines : List String :=
    (match dictGet "wolfram" d with
     | some v => ["- Wolfram: " ++ pyStr v]
     | none => []) ++
    (match dictGet "weather" d with
     | some v => ["- Weather: " ++ pyStr v]
     | none => []) ++
    (match dictGet "news" d with
     | some (RefVal.l items) => ["- News:\n  " ++ String.intercalate "\n  " (items.take 3)]
     | some (RefVal.s v) => ["- News: " ++ v]
     | none => []) ++
    (match dictGet "google" d with
     | some (RefVal.l items) => ["- Google:\n  " ++ String.intercalate "\n  " (items.take 5)]
     | some (RefVal.s v) => ["- Google: " ++ v]
     | none => [])
  if lines = [] then "(no external references)" else String.intercalate "\n" lines

/-! ## Declarative (specification-side) predicates

These state the spec's descriptions of the patterns as plain existential
decompositions of the query, to be proved equivalent to (or distinguished
from) the executable matchers embedded from the source above. -/

/-- Word-character status of the character preceding the current scan
position: `prev` when the scanned prefix `pre` is empty, else the status
of its last character. -/
def prevAt (prev : Bool) : List Char → Bool
  | [] => prev
  | c :: pre => prevAt (isWordC c) pre

/-- The last character of `pre` is a word character (false for `[]`,
i.e. at the start of the string there is a word boundary before a word
character). -/
def lastIsWord (pre : List Char) : Bool := prevAt false pre

/-- The first character of `post` is a word character (false for `[]`). -/
def headIsWord : List Char → Bool
  | [] => false
  | c :: _ => isWordC c

/-- The query contains an occurrence of the (lower-cased) vocabulary item
`w`, case-insensitively; `lb`/`rb` additionally demand a word boundary on
the left/right of the occurrence (the vocabulary items start and end with
letters). With `lb` and `rb` both true this is whole-word containment. -/
def ContainsOcc (w : List Char) (lb rb : Bool) (q : List Char) : Prop :=
  ∃ pre occ post, q = pre ++ occ ++ post ∧ pyLower occ = w ∧
    (lb = true → lastIsWord pre = false) ∧
    (rb = true → headIsWord post = false)

/-- The query contains two numbers joined by an arithmetic operator
(`+ - * / ^`), with optional whitespace around the operator — the
numeric-expression pattern of the spec. -/
def HasNumExpr (q : List Char) : Prop :=
  ∃ pre d1 s1 op s2 d2 post,
    q = pre ++ d1 ++ s1 ++ op :: (s2 ++ d2 ++ post) ∧
    d1 ≠ [] ∧ d1.all isDigitC = true ∧ s1.all isSpaceC = true ∧
    isOpC op = true ∧ s2.all isSpaceC = true ∧
    d2 ≠ [] ∧ d2.all isDigitC = true

/-- `g` is a trailing location phrase of the (stripped) query `l`:
introduced by `in` or `for` (case-insensitive) followed by whitespace,
starting with a letter, continuing with 1–40 characters from the allowed
class (letters, whitespace, period, hyphen, apostrophe), and extending to
the very end of `l`. -/
def TrailingPhrase (l g : List Char) : Prop :=
  ∃ pre kw sp c rest,
    l = pre ++ kw ++ sp ++ (c :: rest) ∧ g = c :: rest ∧
    (pyLower kw = "in".data ∨ pyLower kw = "for".data) ∧
    sp ≠ [] ∧ sp.all isSpaceC = true ∧
    isLetterC c = true ∧ rest.all isAllowedCityC = true ∧
    1 ≤ rest.length ∧ rest.length ≤ 40

/-- A reference dict holding the four possible keys in the fixed
rendering priority order wolfram, weather, news, google (present keys
only). -/
def mkDict (w wt n g : Option RefVal) : RefDict :=
  (match w with | some v => [("wolfram", v)] | none => []) ++
  (match wt with | some v => [("weather", v)] | none => []) ++
  (match n with | some v => [("news", v)] | none => []) ++
  (match g with | some v => [("google", v)] | none => [])

/-! ## Character-class lemmas -/

theorem space_cases {c : Char} (h : isSpaceC c = true) :
    c = ' ' ∨ c = '\t' ∨ c = '\n' ∨ c = '\x0d' ∨ c = '\x0c' ∨ c = '\x0b' := by
  have h2 := h
  simp only [isSpaceC, Bool.or_eq_true, decide_eq_true_eq] at h2
  tauto

theorem op_cases {c : Char} (h : isOpC c = true) :
    c = '+' ∨ c = '-' ∨ c = '*' ∨ c = '/' ∨ c = '^' := by
  have h2 := h
  simp only [isOpC, Bool.or_eq_true, decide_eq_true_eq] at h2
  tauto

theorem toLowerC_of_space {c : Char} (h : isSpaceC c = true) : toLowerC c = c := by
  rcases space_cases h with h | h | h | h | h | h <;> subst h <;> decide

theorem space_not_digit {c : Char} (h : isSpaceC c = true) : isDigitC c = false := by
  rcases space_cases h with h | h | h | h | h | h <;> subst h <;> decide

theorem space_not_word {c : Char} (h : isSpaceC c = true) : isWordC c = false := by
  rcases space_cases h with h | h | h | h | h | h <;> subst h <;> decide

theorem space_not_letter {c : Char} (h : isSpaceC c = true) : isLetterC c = false := by
  rcases space_cases h with h | h | h | h | h | h <;> subst h <;> decide

theorem op_not_digit {c : Char} (h : isOpC c = true) : isDigitC c = false := by
  rcases op_cases h with h | h | h | h | h <;> subst h <;> decide

theorem op_not_space {c : Char} (h : isOpC c = true) : isSpaceC c = false := by
  rcases op_cases h with h | h | h | h | h <;> subst h <;> decide

theorem digit_not_space {c : Char} (h : isDigitC c = true) : isSpaceC c = false := by
  cases hs : isSpaceC c
  · rfl
  · rw [space_not_digit hs] at h; simp at h

theorem letter_not_space {c : Char} (h : isLetterC c = true) : isSpaceC c = false := by
  cases hs : isSpaceC c
  · rfl
  · rw [space_not_letter hs] at h; simp at h

theorem letter_allowed {c : Char} (h : isLetterC c = true) : isAllowedCityC c = true := by
  simp [isAllowedCityC, h]

theorem space_allowed {c : Char} (h : isSpaceC c = true) : isAllowedCityC c = true := by
  simp [isAllowedCityC, h]

theorem letter_of_toLower_letter {c : Char} (h : isLetterC (toLowerC c) = true) :
    isLetterC c = true := by
  unfold toLowerC at h
  by_cases hc : ('A' ≤ c && c ≤ 'Z') = true
  · simp [isLetterC, hc]
  · rw [if_neg (by simpa using hc)] at h
    exact h

/-! ## List helper lemmas -/

theorem all_takeWhile (p : Char → Bool) (l : List Char) :
    (l.takeWhile p).all p = true := by
  induction l with
  | nil => rfl
  | cons a l ih =>
    cases h : p a
    · simp [List.takeWhile_cons, h]
    · simp [List.takeWhile_cons, h, ih]

theorem dropWhile_append_all {p : Char → Bool} {xs : List Char} (ys : List Char)
    (h : xs.all p = true) : (xs ++ ys).dropWhile p = ys.dropWhile p := by
  induction xs with
  | nil => rfl
  | cons a xs ih =>
    simp only [List.all_cons, Bool.and_eq_true] at h
    simp [List.dropWhile_cons, h.1, ih h.2]

theorem takeWhile_append_all {p : Char → Bool} {xs : List Char} (ys : List Char)
    (h : xs.all p = true) : (xs ++ ys).takeWhile p = xs ++ ys.takeWhile p := by
  induction xs with
  | nil => rfl
  | cons a xs ih =>
    simp only [List.all_cons, Bool.and_eq_true] at h
    simp [List.takeWhile_cons, h.1, ih h.2]

theorem dropWhile_eq_self {p : Char → Bool} {l : List Char}
    (h : ∀ c, l.head? = some c → p c = false) : l.dropWhile p = l := by
  cases l with
  | nil => rfl
  | cons a l => simp [List.dropWhile_cons, h a rfl]

theorem getLast?_eq_some_ex {l : List Char} {c : Char} (h : l.getLast? = some c) :
    ∃ t, l = t ++ [c] := by
  induction l with
  | nil => exact absurd h (by simp)
  | cons a l ih =>
    cases l with
    | nil =>
      refine ⟨[], ?_⟩
      have : a = c := by simpa using h
      simp [this]
    | cons b l =>
      have h2 : (b :: l).getLast? = some c := by
        simpa [List.getLast?_cons_cons] using h
      obtain ⟨t, ht⟩ := ih h2
      exact ⟨a :: t, by rw [List.cons_append, ← ht]⟩

/-! ## `ciMatch` characterization -/

theorem ciMatch_some_iff {w l rest : List Char} :
    ciMatch w l = some rest ↔ ∃ occ, l = occ ++ rest ∧ pyLower occ = w := by
  induction w generalizing l with
  | nil =>
    simp only [ciMatch, Option.some.injEq]
    constructor
    · rintro rfl; exact ⟨[], rfl, rfl⟩
    · rintro ⟨occ, h1, h2⟩
      have : occ = [] := by simpa [pyLower] using h2
      subst this; simpa using h1
  | cons a w ih =>
    cases l with
    | nil =>
      simp only [ciMatch]
      constructor
      · intro h; exact absurd h (by simp)
      · rintro ⟨occ, h1, h2⟩
        cases occ with
        | nil => simp [pyLower] at h2
        | cons c occ => simp at h1
    | cons c l =>
      simp only [ciMatch]
      by_cases hc : toLowerC c = a
      · rw [if_pos hc, ih]
        constructor
        · rintro ⟨occ, rfl, h2⟩
          exact ⟨c :: occ, rfl, by simp [pyLower] at h2 ⊢; exact ⟨hc, h2⟩⟩
        · rintro ⟨occ, h1, h2⟩
          cases occ with
          | nil => simp [pyLower] at h2
          | cons d occ =>
            simp only [List.cons_append, List.cons.injEq] at h1
            obtain ⟨rfl, h1⟩ := h1
            simp only [pyLower, List.map_cons, List.cons.injEq] at h2
            exact ⟨occ, h1, h2.2⟩
      · rw [if_neg hc]
        constructor
        · intro h; exact absurd h (by simp)
        · rintro ⟨occ, h1, h2⟩
          cases occ with
          | nil => simp [pyLower] at h2
          | cons d occ =>
            simp only [List.cons_append, List.cons.injEq] at h1
            obtain ⟨rfl, -⟩ := h1
            simp only [pyLower, List.map_cons, List.cons.injEq] at h2
            exact absurd h2.1 hc

/-! ## `occAt` and `searchB` characterizations -/

theorem occAt_eq_true_iff {w : List Char} {lb rb prev : Bool} {l : List Char} :
    occAt w lb rb prev l = true ↔
      ∃ occ rest, l = occ ++ rest ∧ pyLower occ = w ∧
        (lb = true → prev = false) ∧ (rb = true → headIsWord rest = false) := by
  unfold occAt
  cases hm : ciMatch w l with
  | none =>
    constructor
    · intro h; simp at h
    · rintro ⟨occ, rest, rfl, hlow, -, -⟩
      have h2 : ciMatch w (occ ++ rest) = some rest := ciMatch_some_iff.mpr ⟨occ, rfl, hlow⟩
      rw [hm] at h2; exact absurd h2 (by simp)
  | some rest0 =>
    obtain ⟨occ0, hl, hlow0⟩ := ciMatch_some_iff.mp hm
    subst hl
    constructor
    · intro h
      simp only [Bool.and_eq_true, Bool.or_eq_true, Bool.not_eq_true'] at h
      obtain ⟨h1, h2⟩ := h
      refine ⟨occ0, rest0, rfl, hlow0, ?_, ?_⟩
      · intro hlb; subst hlb
        rcases h1 with h1 | h1
        · exact absurd h1 (by simp)
        · exact h1
      · intro hrb; subst hrb
        rcases h2 with h2 | h2
        · exact absurd h2 (by simp)
        · cases rest0 with
          | nil => rfl
          | cons c t => simpa [headIsWord, Bool.not_eq_true'] using h2
    · rintro ⟨occ, rest, heq, hlow, hlb, hrb⟩
      have hlen : occ0.length = occ.length := by
        have := congrArg List.length (hlow0.trans hlow.symm)
        simpa [pyLower] using this
      obtain ⟨h3, h4⟩ := List.append_inj heq hlen
      subst h3; subst h4
      simp only [Bool.and_eq_true, Bool.or_eq_true, Bool.not_eq_true']
      constructor
      · cases lb with
        | false => exact Or.inl rfl
        | true => exact Or.inr (hlb rfl)
      · cases rb with
        | false => exact Or.inl rfl
        | true =>
          refine Or.inr ?_
          have hh := hrb rfl
          cases rest0 with
          | nil => rfl
          | cons c t => simpa [headIsWord, Bool.not_eq_true'] using hh

theorem searchB_eq_true_iff (atPos : Bool → List Char → Bool)
    (hnil : ∀ p, atPos p [] = false) (prev : Bool) (l : List Char) :
    searchB atPos prev l = true ↔
      ∃ pre suf, l = pre ++ suf ∧ atPos (prevAt prev pre) suf = true := by
  induction l generalizing prev with
  | nil =>
    constructor
    · intro h; exact absurd h (by simp [searchB])
    · rintro ⟨pre, suf, h1, h2⟩
      obtain ⟨rfl, rfl⟩ := List.append_eq_nil.mp h1.symm
      rw [hnil] at h2; exact absurd h2 (by simp)
  | cons c rest ih =>
    simp only [searchB, Bool.or_eq_true, ih]
    constructor
    · rintro (h | ⟨pre, suf, h1, h2⟩)
      · exact ⟨[], c :: rest, rfl, h⟩
      · exact ⟨c :: pre, suf, by rw [h1, List.cons_append], h2⟩
    · rintro ⟨pre, suf, h1, h2⟩
      cases pre with
      | nil =>
        left
        simp only [List.nil_append] at h1
        rw [← h1] at h2
        exact h2
      | cons c2 pre =>
        right
        simp only [List.cons_append, List.cons.injEq] at h1
        obtain ⟨rfl, h1⟩ := h1
        exact ⟨pre, suf, h1, h2⟩

theorem searchB_mono {f g : Bool → List Char → Bool}
    (hfg : ∀ p l, f p l = true → g p l = true) :
    ∀ (prev : Bool) (l : List Char),
      searchB f prev l = true → searchB g prev l = true := by
  intro prev l
  induction l generalizing prev with
  | nil => intro h; simp [searchB] at h
  | cons c rest ih =>
    simp only [searchB, Bool.or_eq_true]
    rintro (h | h)
    · exact Or.inl (hfg _ _ h)
    · exact Or.inr (ih _ h)

theorem exists_split_occAt_iff {w : List Char} {lb rb : Bool} {q : List Char} :
    (∃ pre suf, q = pre ++ suf ∧ occAt w lb rb (prevAt false pre) suf = true) ↔
      ContainsOcc w lb rb q := by
  constructor
  · rintro ⟨pre, suf, rfl, h⟩
    rw [occAt_eq_true_iff] at h
    obtain ⟨occ, rest, rfl, hlow, hlb, hrb⟩ := h
    exact ⟨pre, occ, rest, (List.append_assoc pre occ rest).symm, hlow, hlb, hrb⟩
  · rintro ⟨pre, occ, post, rfl, hlow, hlb, hrb⟩
    refine ⟨pre, occ ++ post, List.append_assoc pre occ post, ?_⟩
    rw [occAt_eq_true_iff]
    exact ⟨occ, post, rfl, hlow, hlb, hrb⟩

theorem occAt_nil {a : Char} {w : List Char} (lb rb p : Bool) :
    occAt (a :: w) lb rb p [] = false := by
  simp [occAt, ciMatch]

theorem containsOcc_iff_searchB {w : List Char} (hw : w ≠ []) {lb rb : Bool}
    {q : List Char} :
    searchB (occAt w lb rb) false q = true ↔ ContainsOcc w lb rb q := by
  obtain ⟨a, w2, rfl⟩ : ∃ a w2, w = a :: w2 := by
    cases w with
    | nil => exact absurd rfl hw
    | cons a w2 => exact ⟨a, w2, rfl⟩
  rw [searchB_eq_true_iff _ (fun p => occAt_nil lb rb p)]
  exact exists_split_occAt_iff

/-! ## The numeric-expression pattern -/

theorem head_not_digit_of_space_op {s t : List Char} {op : Char}
    (hs : s.all isSpaceC = true) (hop : isOpC op = true) :
    ∀ x, (s ++ op :: t).head? = some x → isDigitC x = false := by
  intro x hx
  cases s with
  | nil =>
    simp only [List.nil_append, List.head?_cons, Option.some.injEq] at hx
    subst hx; exact op_not_digit hop
  | cons a s =>
    simp only [List.cons_append, List.head?_cons, Option.some.injEq] at hx
    subst hx
    simp only [List.all_cons, Bool.and_eq_true] at hs
    exact space_not_digit hs.1

theorem numExprAt_eq_true_iff {l : List Char} :
    numExprAt l = true ↔
      ∃ d1 s1 op s2 d2 post,
        l = d1 ++ s1 ++ op :: (s2 ++ d2 ++ post) ∧
        d1 ≠ [] ∧ d1.all isDigitC = true ∧ s1.all isSpaceC = true ∧
        isOpC op = true ∧ s2.all isSpaceC = true ∧ d2 ≠ [] ∧ d2.all isDigitC = true := by
  constructor
  · intro h
    cases l with
    | nil => exact absurd h (by simp [numExprAt])
    | cons c rest =>
      simp only [numExprAt, Bool.and_eq_true] at h
      obtain ⟨hdig, h⟩ := h
      cases hm : (rest.dropWhile isDigitC).dropWhile isSpaceC with
      | nil => rw [hm] at h; exact absurd h (by simp [opStep])
      | cons o l3 =>
        rw [hm] at h
        simp only [opStep, Bool.and_eq_true] at h
        obtain ⟨hop, h⟩ := h
        cases hm2 : l3.dropWhile isSpaceC with
        | nil => rw [hm2] at h; exact absurd h (by simp [digitStep])
        | cons d tail =>
          rw [hm2] at h
          simp only [digitStep] at h
          have e1 : rest = rest.takeWhile isDigitC ++ rest.dropWhile isDigitC :=
            (List.takeWhile_append_dropWhile isDigitC rest).symm
          have e2 : rest.dropWhile isDigitC =
              (rest.dropWhile isDigitC).takeWhile isSpaceC ++ (o :: l3) := by
            conv_lhs => rw [← List.takeWhile_append_dropWhile (p := isSpaceC)
              (l := rest.dropWhile isDigitC)]
            rw [hm]
          have e3 : l3 = l3.takeWhile isSpaceC ++ (d :: tail) := by
            conv_lhs => rw [← List.takeWhile_append_dropWhile (p := isSpaceC) (l := l3)]
            rw [hm2]
          refine ⟨c :: rest.takeWhile isDigitC,
                  (rest.dropWhile isDigitC).takeWhile isSpaceC,
                  o, l3.takeWhile isSpaceC, [d], tail, ?_, by simp, ?_, ?_, hop, ?_,
                  by simp, by simp [h]⟩
          · conv_lhs => rw [e1, e2, e3]
            simp [List.append_assoc]
          · simp [List.all_cons, hdig, all_takeWhile]
          · exact all_takeWhile _ _
          · exact all_takeWhile _ _
  · rintro ⟨d1, s1, op, s2, d2, post, rfl, h1, h2, h3, h4, h5, h6, h7⟩
    cases d1 with
    | nil => exact absurd rfl h1
    | cons c d1' =>
      simp only [List.all_cons, Bool.and_eq_true] at h2
      obtain ⟨hc, hd1'⟩ := h2
      cases d2 with
      | nil => exact absurd rfl h6
      | cons dd d2' =>
        simp only [List.all_cons, Bool.and_eq_true] at h7
        obtain ⟨hdd, hd2'⟩ := h7
        have hshape : (c :: d1') ++ s1 ++ op :: (s2 ++ dd :: d2' ++ post) =
            c :: (d1' ++ (s1 ++ (op :: (s2 ++ (dd :: (d2' ++ post)))))) := by
          simp [List.append_assoc]
        rw [hshape]
        simp only [numExprAt, Bool.and_eq_true]
        refine ⟨hc, ?_⟩
        have e1 : (d1' ++ (s1 ++ (op :: (s2 ++ (dd :: (d2' ++ post)))))).dropWhile isDigitC =
            s1 ++ (op :: (s2 ++ (dd :: (d2' ++ post)))) := by
          rw [dropWhile_append_all _ hd1']
          exact dropWhile_eq_self (head_not_digit_of_space_op h3 h4)
        have e2 : (s1 ++ (op :: (s2 ++ (dd :: (d2' ++ post))))).dropWhile isSpaceC =
            op :: (s2 ++ (dd :: (d2' ++ post))) := by
          rw [dropWhile_append_all _ h3]
          refine dropWhile_eq_self ?_
          intro x hx
          simp only [List.head?_cons, Option.some.injEq] at hx
          subst hx; exact op_not_space h4
        rw [e1, e2]
        simp only [opStep, Bool.and_eq_true]
        refine ⟨h4, ?_⟩
        have e3 : (s2 ++ (dd :: (d2' ++ post))).dropWhile isSpaceC = dd :: (d2' ++ post) := by
          rw [dropWhile_append_all _ h5]
          refine dropWhile_eq_self ?_
          intro x hx
          simp only [List.head?_cons, Option.some.injEq] at hx
          subst hx; exact digit_not_space hdd
        rw [e3]
        simp [digitStep, hdd]

theorem numExprAt_nil : numExprAt [] = false := rfl

theorem exists_split_numExprAt_iff {q : List Char} :
    (∃ pre suf, q = pre ++ suf ∧ numExprAt suf = true) ↔ HasNumExpr q := by
  constructor
  · rintro ⟨pre, suf, rfl, h⟩
    obtain ⟨d1, s1, op, s2, d2, post, rfl, h1, h2, h3, h4, h5, h6, h7⟩ :=
      numExprAt_eq_true_iff.mp h
    exact ⟨pre, d1, s1, op, s2, d2, post, by simp [List.append_assoc],
      h1, h2, h3, h4, h5, h6, h7⟩
  · rintro ⟨pre, d1, s1, op, s2, d2, post, rfl, h1, h2, h3, h4, h5, h6, h7⟩
    exact ⟨pre, _, by simp [List.append_assoc],
      numExprAt_eq_true_iff.mpr ⟨d1, s1, op, s2, d2, post, rfl, h1, h2, h3, h4, h5, h6, h7⟩⟩

/-! ## Search-position lemmas for the three hint regexes -/

theorem mathAt_nil (p : Bool) : mathAt p [] = false := by cases p <;> decide

theorem newsAt_nil (p : Bool) : newsAt p [] = false := by cases p <;> decide

theorem weatherAt_nil (p : Bool) : weatherAt p [] = false := by cases p <;> decide

/-- **C3.** `looks_like_math` is true exactly when the query contains two
numbers joined by an arithmetic operator (`+ - * / ^`, optional
whitespace around it), or contains one of the computation verbs `solve`,
`evaluate`, `derivative`, `integral` as a whole word, case-insensitively;
in particular it is true for every query containing the
numeric-expression pattern. -/
theorem looks_like_math_characterization (q : String) :
    looks_like_math q = true ↔
      (HasNumExpr q.data ∨
       ContainsOcc "solve".data true true q.data ∨
       ContainsOcc "evaluate".data true true q.data ∨
       ContainsOcc "derivative".data true true q.data ∨
       ContainsOcc "integral".data true true q.data) := by
  rw [looks_like_math, searchB_eq_true_iff mathAt mathAt_nil]
  simp only [mathAt, Bool.or_eq_true, or_assoc, and_or_left, exists_or]
  exact or_congr exists_split_numExprAt_iff (or_congr exists_split_occAt_iff
    (or_congr exists_split_occAt_iff (or_congr exists_split_occAt_iff
      exists_split_occAt_iff)))

/-- **C2 (counterexample).** The claim "the news intent is true iff the
query contains news/headline/trending/today as a whole word" fails at the
query `"headlines"`: the code's gate matches (the `headline` alternative
carries no word boundaries), yet `"headlines"` contains none of the four
vocabulary items as a whole word. -/
theorem news_intent_not_whole_word :
    newsIntent "headlines" = true ∧
      ¬ (ContainsOcc "news".data true true "headlines".data ∨
         ContainsOcc "headline".data true true "headlines".data ∨
         ContainsOcc "trending".data true true "headlines".data ∨
         ContainsOcc "today".data true true "headlines".data) := by
  constructor
  · decide
  · rw [← containsOcc_iff_searchB (w := "news".data) (by decide),
        ← containsOcc_iff_searchB (w := "headline".data) (by decide),
        ← containsOcc_iff_searchB (w := "trending".data) (by decide),
        ← containsOcc_iff_searchB (w := "today".data) (by decide)]
    decide

/-- **C2 (amended).** The news intent is true iff, case-insensitively,
the query contains `news` preceded by a word boundary, contains
`headline` or `trending` anywhere as a substring, or contains `today`
followed by a word boundary — the regex
`\bnews|headline|trending|today\b` attaches the boundaries only to the
first and last alternatives. -/
theorem news_intent_characterization (q : String) :
    newsIntent q = true ↔
      (ContainsOcc "news".data true false q.data ∨
       ContainsOcc "headline".data false false q.data ∨
       ContainsOcc "trending".data false false q.data ∨
       ContainsOcc "today".data false true q.data) := by
  rw [newsIntent, searchB_eq_true_iff newsAt newsAt_nil]
  simp only [newsAt, Bool.or_eq_true, or_assoc, and_or_left, exists_or]
  exact or_congr exists_split_occAt_iff (or_congr exists_split_occAt_iff
    (or_congr exists_split_occAt_iff exists_split_occAt_iff))

/-! ## Location-phrase extraction lemmas -/

theorem getLast?_append_cons (x : List Char) (c0 : Char) (rest : List Char) :
    (x ++ c0 :: rest).getLast? = (c0 :: rest).getLast? := by
  induction x with
  | nil => rfl
  | cons a x ih =>
    rw [List.cons_append]
    cases x with
    | nil => exact List.getLast?_cons_cons
    | cons b t =>
      rw [List.cons_append, List.getLast?_cons_cons]
      simpa using ih

theorem firstSome_some {g : List Char} {b : Option (List Char)} :
    firstSome (some g) b = some g := rfl

theorem firstSome_none {b : Option (List Char)} : firstSome none b = b := rfl

theorem kwMatch_some_iff {l r : List Char} :
    kwMatch l = some r ↔
      ∃ kw, l = kw ++ r ∧ (pyLower kw = "in".data ∨ pyLower kw = "for".data) := by
  constructor
  · intro h
    unfold kwMatch at h
    cases hm : ciMatch "in".data l with
    | some rest =>
      rw [hm, firstSome_some] at h
      obtain rfl : rest = r := Option.some.inj h
      obtain ⟨kw, rfl, hlow⟩ := ciMatch_some_iff.mp hm
      exact ⟨kw, rfl, Or.inl hlow⟩
    | none =>
      rw [hm, firstSome_none] at h
      obtain ⟨kw, rfl, hlow⟩ := ciMatch_some_iff.mp h
      exact ⟨kw, rfl, Or.inr hlow⟩
  · rintro ⟨kw, rfl, hkw | hkw⟩
    · have h1 : ciMatch "in".data (kw ++ r) = some r := ciMatch_some_iff.mpr ⟨kw, rfl, hkw⟩
      unfold kwMatch; rw [h1, firstSome_some]
    · have h1 : ciMatch "for".data (kw ++ r) = some r := ciMatch_some_iff.mpr ⟨kw, rfl, hkw⟩
      have h0 : ciMatch "in".data (kw ++ r) = none := by
        obtain ⟨a, b, c2, rfl⟩ : ∃ a b c2, kw = [a, b, c2] := by
          have hkw2 := hkw
          rw [show "for".data = ['f', 'o', 'r'] from rfl] at hkw2
          cases kw with
          | nil => simp [pyLower] at hkw2
          | cons a t =>
            cases t with
            | nil => simp [pyLower] at hkw2
            | cons b t2 =>
              cases t2 with
              | nil => simp [pyLower] at hkw2
              | cons c2 t3 =>
                cases t3 with
                | nil => exact ⟨a, b, c2, rfl⟩
                | cons d t4 => simp [pyLower] at hkw2
        have ha : toLowerC a = 'f' := by
          rw [show "for".data = ['f', 'o', 'r'] from rfl] at hkw
          have h3 : toLowerC a = 'f' ∧ toLowerC b = 'o' ∧ toLowerC c2 = 'r' := by
            simpa [pyLower] using hkw
          exact h3.1
        rw [show "in".data = 'i' :: ['n'] from rfl, List.cons_append]
        simp only [ciMatch]
        rw [if_neg (by rw [ha]; decide)]
      unfold kwMatch; rw [h0, h1, firstSome_none]

theorem cityAt_some_iff {l g : List Char} :
    cityAt l = some g ↔
      ∃ kw sp c rest, l = kw ++ sp ++ (c :: rest) ∧ g = c :: rest ∧
        (pyLower kw = "in".data ∨ pyLower kw = "for".data) ∧
        sp ≠ [] ∧ sp.all isSpaceC = true ∧
        isLetterC c = true ∧ rest.all isAllowedCityC = true ∧
        1 ≤ rest.length ∧ rest.length ≤ 40 := by
  constructor
  · intro h
    unfold cityAt at h
    cases hk : kwMatch l with
    | none => rw [hk] at h; exact absurd h (by simp)
    | some afterKw =>
      rw [hk] at h
      simp only at h
      obtain ⟨kw, rfl, hkw⟩ := kwMatch_some_iff.mp hk
      unfold cityAfterKw at h
      by_cases hemp : afterKw.takeWhile isSpaceC = []
      · rw [if_pos hemp] at h; exact absurd h (by simp)
      · rw [if_neg hemp] at h
        cases hd : afterKw.dropWhile isSpaceC with
        | nil => rw [hd] at h; exact absurd h (by simp [cityTail])
        | cons c rest =>
          rw [hd] at h
          simp only [cityTail] at h
          by_cases hcond : (isLetterC c && rest.all isAllowedCityC &&
              decide (1 ≤ rest.length) && decide (rest.length ≤ 40)) = true
          · rw [if_pos hcond] at h
            obtain rfl : c :: rest = g := Option.some.inj h
            simp only [Bool.and_eq_true, decide_eq_true_eq] at hcond
            refine ⟨kw, afterKw.takeWhile isSpaceC, c, rest, ?_, rfl, hkw, hemp,
              all_takeWhile _ _, hcond.1.1.1, hcond.1.1.2, hcond.1.2, hcond.2⟩
            rw [List.append_assoc]
            congr 1
            conv_lhs => rw [← List.takeWhile_append_dropWhile (p := isSpaceC) (l := afterKw)]
            rw [hd]
          · rw [if_neg hcond] at h
            exact absurd h (by simp)
  · rintro ⟨kw, sp, c, rest, rfl, rfl, hkw, hspne, hspall, hc, hrest, h1, h40⟩
    have hkwm : kwMatch (kw ++ sp ++ (c :: rest)) = some (sp ++ (c :: rest)) := by
      rw [List.append_assoc]
      exact kwMatch_some_iff.mpr ⟨kw, rfl, hkw⟩
    unfold cityAt
    rw [hkwm]
    show cityAfterKw (sp ++ (c :: rest)) = some (c :: rest)
    have hdrop : (sp ++ (c :: rest)).dropWhile isSpaceC = c :: rest := by
      rw [dropWhile_append_all _ hspall]
      refine dropWhile_eq_self ?_
      intro x hx
      simp only [List.head?_cons, Option.some.injEq] at hx
      subst hx; exact letter_not_space hc
    have htake : (sp ++ (c :: rest)).takeWhile isSpaceC = sp := by
      rw [takeWhile_append_all _ hspall]
      have h2 : (c :: rest).takeWhile isSpaceC = [] := by
        simp [List.takeWhile_cons, letter_not_space hc]
      rw [h2, List.append_nil]
    unfold cityAfterKw
    rw [htake, hdrop, if_neg hspne]
    simp only [cityTail]
    rw [if_pos (by simp [hc, hrest, h1, h40])]

theorem cityAt_nil : cityAt [] = none := by decide

theorem citySearch_sound {l g : List Char} (h : citySearch l = some g) :
    TrailingPhrase l g := by
  induction l with
  | nil => simp [citySearch] at h
  | cons c0 rest ih =>
    simp only [citySearch] at h
    cases hc : cityAt (c0 :: rest) with
    | some g2 =>
      rw [hc, firstSome_some] at h
      obtain rfl : g2 = g := Option.some.inj h
      obtain ⟨kw, sp, c1, r1, hsplit, hg, hkw, hspne, hspall, hc1, hr1, hl1, hl40⟩ :=
        cityAt_some_iff.mp hc
      exact ⟨[], kw, sp, c1, r1, by simpa using hsplit, hg, hkw, hspne, hspall,
        hc1, hr1, hl1, hl40⟩
    | none =>
      rw [hc, firstSome_none] at h
      obtain ⟨pre, kw, sp, c1, r1, hsplit, hg, hkw, hspne, hspall, hc1, hr1, hl1, hl40⟩ :=
        ih h
      exact ⟨c0 :: pre, kw, sp, c1, r1, by simp [hsplit], hg, hkw, hspne, hspall,
        hc1, hr1, hl1, hl40⟩

theorem citySearch_isSome_aux (pre suf g0 : List Char)
    (hAt : cityAt suf = some g0) : ∃ g, citySearch (pre ++ suf) = some g := by
  induction pre with
  | nil =>
    cases suf with
    | nil => rw [cityAt_nil] at hAt; exact absurd hAt (by simp)
    | cons s0 suf2 =>
      refine ⟨g0, ?_⟩
      rw [List.nil_append]
      simp only [citySearch]
      rw [hAt, firstSome_some]
  | cons p0 pre2 ih =>
    obtain ⟨g, hg⟩ := ih
    cases hc : cityAt ((p0 :: pre2) ++ suf) with
    | some g2 =>
      refine ⟨g2, ?_⟩
      rw [List.cons_append]
      simp only [citySearch]
      rw [← List.cons_append, hc, firstSome_some]
    | none =>
      refine ⟨g, ?_⟩
      rw [List.cons_append]
      simp only [citySearch]
      rw [← List.cons_append, hc, firstSome_none]
      exact hg

theorem citySearch_isSome_of {l g0 : List Char} (h : TrailingPhrase l g0) :
    ∃ g, citySearch l = some g := by
  obtain ⟨pre, kw, sp, c, rest, hsplit, -, hkw, hspne, hspall, hc, hrest, h1, h40⟩ := h
  have hAt : cityAt (kw ++ sp ++ (c :: rest)) = some (c :: rest) :=
    cityAt_some_iff.mpr ⟨kw, sp, c, rest, rfl, rfl, hkw, hspne, hspall, hc, hrest, h1, h40⟩
  have hsplit2 : l = pre ++ (kw ++ sp ++ (c :: rest)) := by
    rw [hsplit]; simp [List.append_assoc]
  rw [hsplit2]
  exact citySearch_isSome_aux pre _ _ hAt

theorem trailing_g_last_allowed {l g : List Char} (hT : TrailingPhrase l g) :
    ∀ c, g.getLast? = some c → isAllowedCityC c = true := by
  obtain ⟨pre, kw, sp, c0, rest, hsplit, rfl, -, -, -, hc0, hrest, -, -⟩ := hT
  intro c hc
  obtain ⟨t, ht⟩ := getLast?_eq_some_ex hc
  have hmem : c ∈ c0 :: rest := by rw [ht]; simp
  rcases List.mem_cons.mp hmem with rfl | hmem2
  · exact letter_allowed hc0
  · exact List.all_eq_true.mp hrest c hmem2

theorem trailing_l_last_allowed {l g : List Char} (hT : TrailingPhrase l g) :
    ∀ c, l.getLast? = some c → isAllowedCityC c = true := by
  intro c hc
  obtain ⟨pre, kw, sp, c0, rest, hsplit, hg, hkw, hspne, hspall, hc0, hrest, hl1, hl40⟩ := hT
  rw [hsplit, getLast?_append_cons] at hc
  refine trailing_g_last_allowed
    ⟨pre, kw, sp, c0, rest, hsplit, hg, hkw, hspne, hspall, hc0, hrest, hl1, hl40⟩ c ?_
  rw [hg]; exact hc

/-! ## `pyStrip` decomposition and last-character lemmas -/

theorem all_reverse_of {p : Char → Bool} {l : List Char} (h : l.all p = true) :
    l.reverse.all p = true := by
  rw [List.all_eq_true] at h ⊢
  intro x hx
  exact h x (List.mem_reverse.mp hx)

theorem pyStrip_split (l : List Char) :
    ∃ a b, l = a ++ pyStrip l ++ b ∧ a.all isSpaceC = true ∧ b.all isSpaceC = true := by
  refine ⟨l.takeWhile isSpaceC, ((l.dropWhile isSpaceC).reverse.takeWhile isSpaceC).reverse,
    ?_, all_takeWhile _ _, all_reverse_of (all_takeWhile _ _)⟩
  conv_lhs => rw [← List.takeWhile_append_dropWhile (p := isSpaceC) (l := l)]
  rw [List.append_assoc]
  congr 1
  unfold pyStrip
  rw [← List.reverse_append, List.takeWhile_append_dropWhile, List.reverse_reverse]

theorem prevAt_all_space {a : List Char} (h : a.all isSpaceC = true) {p : Bool}
    (hp : p = false) : prevAt p a = false := by
  induction a generalizing p with
  | nil => simpa [prevAt] using hp
  | cons c t ih =>
    simp only [List.all_cons, Bool.and_eq_true] at h
    simp only [prevAt]
    exact ih h.2 (space_not_word h.1)

theorem headIsWord_all_space {b : List Char} (h : b.all isSpaceC = true) :
    headIsWord b = false := by
  cases b with
  | nil => rfl
  | cons c t =>
    simp only [List.all_cons, Bool.and_eq_true] at h
    simpa [headIsWord] using space_not_word h.1

theorem weatherHint_of_bare_eq {q : List Char}
    (h : pyLower (pyStrip q) = "weather".data ∨ pyLower (pyStrip q) = "forecast".data ∨
         pyLower (pyStrip q) = "temperature".data) :
    weatherHint q = true := by
  obtain ⟨a, b, hsplit, ha, hb⟩ := pyStrip_split q
  have hocc : ∀ w : List Char, pyLower (pyStrip q) = w → ContainsOcc w true true q :=
    fun w hw => ⟨a, pyStrip q, b, hsplit, hw,
      fun _ => prevAt_all_space ha rfl, fun _ => headIsWord_all_space hb⟩
  rcases h with h | h | h
  · exact searchB_mono (fun p l hh => by simp [weatherAt, hh]) false q
      ((containsOcc_iff_searchB (by decide)).mpr (hocc _ h))
  · exact searchB_mono (fun p l hh => by simp [weatherAt, hh]) false q
      ((containsOcc_iff_searchB (by decide)).mpr (hocc _ h))
  · exact searchB_mono (fun p l hh => by simp [weatherAt, hh]) false q
      ((containsOcc_iff_searchB (by decide)).mpr (hocc _ h))

theorem citySearch_none_of_no_space {l : List Char}
    (h : ∀ c ∈ l, isSpaceC c = false) : citySearch l = none := by
  cases hc : citySearch l with
  | none => rfl
  | some g =>
    exfalso
    obtain ⟨pre, kw, sp, c, rest, hsplit, -, -, hspne, hspall, -, -, -, -⟩ :=
      citySearch_sound hc
    cases sp with
    | nil => exact hspne rfl
    | cons s sp2 =>
      have hs : isSpaceC s = true := by
        simp only [List.all_cons, Bool.and_eq_true] at hspall
        exact hspall.1
      have hmem : s ∈ l := by rw [hsplit]; simp
      rw [h s hmem] at hs
      exact absurd hs (by simp)

theorem no_space_of_lower_eq {l w : List Char} (hl : pyLower l = w)
    (hw : ∀ c ∈ w, isSpaceC c = false) : ∀ c ∈ l, isSpaceC c = false := by
  intro c hc
  cases hs : isSpaceC c
  · rfl
  · have h1 : toLowerC c ∈ w := by rw [← hl]; exact List.mem_map_of_mem _ hc
    rw [toLowerC_of_space hs] at h1
    rw [hw c h1] at hs
    exact absurd hs (by simp)

theorem dropWhile_append_last {p : Char → Bool} {u : List Char} {c : Char}
    (hc : p c = false) :
    (u ++ [c]).dropWhile p = u.dropWhile p ++ [c] ∨ (u ++ [c]).dropWhile p = [c] := by
  induction u with
  | nil => right; simp [List.dropWhile_cons, hc]
  | cons a u ih =>
    cases ha : p a
    · left; simp [List.dropWhile_cons, ha]
    · rcases ih with h | h
      · left; simp [List.dropWhile_cons, ha, h]
      · right; simp [List.dropWhile_cons, ha, h]

theorem pyStrip_concat_of_last {l : List Char} {c : Char}
    (hl : l.getLast? = some c) (hc : isSpaceC c = false) :
    ∃ t, pyStrip l = t ++ [c] := by
  obtain ⟨u, rfl⟩ := getLast?_eq_some_ex hl
  unfold pyStrip
  rcases dropWhile_append_last (p := isSpaceC) (u := u) hc with h1 | h1 <;> rw [h1]
  · refine ⟨(u.dropWhile isSpaceC).reverse.reverse, ?_⟩
    rw [List.reverse_append]
    simp only [List.reverse_cons, List.reverse_nil, List.nil_append, List.singleton_append]
    have h2 : (c :: (u.dropWhile isSpaceC).reverse).dropWhile isSpaceC =
        c :: (u.dropWhile isSpaceC).reverse := by
      refine dropWhile_eq_self ?_
      intro x hx
      simp only [List.head?_cons, Option.some.injEq] at hx
      subst hx; exact hc
    rw [h2, List.reverse_cons]
  · refine ⟨[], ?_⟩
    simp [List.dropWhile_cons, hc]

theorem lower_strip_last_ne {s t : List Char} {c : Char} {w : List Char} {x : Char}
    (ht : s = t ++ [c]) (hwlast : w.getLast? = some x)
    (hxletter : isLetterC x = true) (hcletter : isLetterC c = false) :
    pyLower s ≠ w := by
  intro hEq
  have h4 : w.getLast? = some (toLowerC c) := by
    rw [← hEq, ht]
    simp [pyLower, List.map_append, List.getLast?_concat]
  rw [hwlast] at h4
  have h5 : toLowerC c = x := (Option.some.inj h4).symm
  have h6 : isLetterC c = true := letter_of_toLower_letter (by rw [h5]; exact hxletter)
  rw [h6] at hcletter
  exact absurd hcletter (by simp)

/-! ## Claim theorems for weather-location extraction -/

/-- **C4.** If the query carries the weather vocabulary and its stripped
form ends in a trailing location phrase introduced by `in`/`for`
(letter-initial, 1–40 further characters from letters/whitespace/
period/hyphen/apostrophe, extending to the end), then the extraction
succeeds: `should_check_weather` returns the (leftmost such) phrase
trimmed of surrounding whitespace and surrounding periods. -/
theorem weather_location_extraction (q : String) (g0 : List Char)
    (hw : weatherHint q.data = true) (hex : TrailingPhrase (pyStrip q.data) g0) :
    ∃ g, citySearch (pyStrip q.data) = some g ∧ TrailingPhrase (pyStrip q.data) g ∧
      should_check_weather q = some (String.mk (stripDots (pyStrip g))) := by
  obtain ⟨g, hg⟩ := citySearch_isSome_of hex
  refine ⟨g, hg, citySearch_sound hg, ?_⟩
  simp [should_check_weather, hw, hg]

/-- **C4 (witness).** For the query `"weather in Paris"` the extraction
returns exactly `"Paris"`. -/
theorem weather_location_extraction_witness :
    should_check_weather "weather in Paris" = some "Paris" := by
  obtain ⟨g, hcs, -, hres⟩ := weather_location_extraction "weather in Paris" "Paris".data
    (by decide)
    ⟨"weather ".data, "in".data, " ".data, 'P', "aris".data, by decide, by decide,
      by decide, by decide, by decide, by decide, by decide, by decide, by decide⟩
  have hgg : g = "Paris".data := by
    have h2 : citySearch (pyStrip "weather in Paris".data) = some "Paris".data := by decide
    exact Option.some.inj (hcs.symm.trans h2)
  subst hgg
  rw [hres]
  decide

/-- **C5.** A query whose trimmed, lower-cased form is exactly one of the
bare vocabulary words `weather`, `forecast`, `temperature` gets the fixed
fallback location `"London"`; when the weather vocabulary is present but
neither a location phrase is extractable nor the bare-word case applies,
no weather lookup happens (`should_check_weather` returns `none`). -/
theorem weather_bare_word_fallback (q : String) :
    ((pyLower (pyStrip q.data) = "weather".data ∨
      pyLower (pyStrip q.data) = "forecast".data ∨
      pyLower (pyStrip q.data) = "temperature".data) →
        should_check_weather q = some "London") ∧
    (weatherHint q.data = true → citySearch (pyStrip q.data) = none →
      ¬ (pyLower (pyStrip q.data) = "weather".data ∨
         pyLower (pyStrip q.data) = "forecast".data ∨
         pyLower (pyStrip q.data) = "temperature".data) →
      should_check_weather q = none) := by
  constructor
  · intro hbare
    have hwh := weatherHint_of_bare_eq hbare
    have hnospace : ∀ c ∈ pyStrip q.data, isSpaceC c = false := by
      rcases hbare with h | h | h
      · exact no_space_of_lower_eq h (by decide)
      · exact no_space_of_lower_eq h (by decide)
      · exact no_space_of_lower_eq h (by decide)
    have hcs := citySearch_none_of_no_space hnospace
    simp [should_check_weather, hwh, hcs, hbare]
  · intro h1 h2 h3
    simp [should_check_weather, h1, h2, h3]

/-- **C5 (witness).** The bare query `"weather"` defaults to London; the
query `"weather please"` (weather vocabulary, no extractable location, not
a bare vocabulary word) yields no weather lookup. -/
theorem weather_bare_word_fallback_witness :
    should_check_weather "weather" = some "London" ∧
    should_check_weather "weather please" = none :=
  ⟨(weather_bare_word_fallback "weather").1 (by decide),
   (weather_bare_word_fallback "weather please").2 (by decide) (by decide) (by decide)⟩

/-- **C9.** Location extraction is `$`-anchored and restricted: whenever
the search succeeds, the captured group is a trailing phrase introduced by
`in`/`for`, is at least two characters long, and ends in a character from
the allowed class (letter, whitespace, period, hyphen, apostrophe);
consequently a query whose final character lies outside that class (for
example `?` or a digit) produces no weather lookup at all. -/
theorem city_extraction_anchored (q : String) :
    (∀ g, citySearch (pyStrip q.data) = some g →
        TrailingPhrase (pyStrip q.data) g ∧ 2 ≤ g.length ∧
        ∀ c, g.getLast? = some c → isAllowedCityC c = true) ∧
    (∀ c, q.data.getLast? = some c → isAllowedCityC c = false →
        should_check_weather q = none) := by
  constructor
  · intro g hg
    have hT := citySearch_sound hg
    refine ⟨hT, ?_, trailing_g_last_allowed hT⟩
    obtain ⟨pre, kw, sp, c, rest, hsplit, rfl, -, -, -, -, -, h1, -⟩ := hT
    simp only [List.length_cons]
    omega
  · intro c hlast hna
    have hcsp : isSpaceC c = false := by
      cases hs : isSpaceC c
      · rfl
      · rw [space_allowed hs] at hna; exact absurd hna (by simp)
    have hletter : isLetterC c = false := by
      cases hl : isLetterC c
      · rfl
      · rw [letter_allowed hl] at hna; exact absurd hna (by simp)
    obtain ⟨t, ht⟩ := pyStrip_concat_of_last hlast hcsp
    have hlast2 : (pyStrip q.data).getLast? = some c := by
      rw [ht]; exact List.getLast?_concat _
    have hcs : citySearch (pyStrip q.data) = none := by
      cases hc : citySearch (pyStrip q.data) with
      | none => rfl
      | some g =>
        exfalso
        have hall := trailing_l_last_allowed (citySearch_sound hc) c hlast2
        rw [hall] at hna
        exact absurd hna (by simp)
    have hb1 := lower_strip_last_ne (s := pyStrip q.data) ht
      (show ("weather".data).getLast? = some 'r' by decide) (by decide) hletter
    have hb2 := lower_strip_last_ne (s := pyStrip q.data) ht
      (show ("forecast".data).getLast? = some 't' by decide) (by decide) hletter
    have hb3 := lower_strip_last_ne (s := pyStrip q.data) ht
      (show ("temperature".data).getLast? = some 'e' by decide) (by decide) hletter
    cases hwh : weatherHint q.data with
    | false => simp [should_check_weather, hwh]
    | true => simp [should_check_weather, hwh, hcs, hb1, hb2, hb3]

/-- **C9 (witness).** The query `"weather in Tokyo tomorrow?"` ends in
`?`, which is outside the allowed class, so no weather lookup happens. -/
theorem city_extraction_anchored_witness :
    should_check_weather "weather in Tokyo tomorrow?" = none :=
  (city_extraction_anchored "weather in Tokyo tomorrow?").2 '?' (by decide) (by decide)

/-! ## Reference-dict and pipeline theorems -/

theorem dictGet_mkDict_wolfram (w wt n g : Option RefVal) :
    dictGet "wolfram" (mkDict w wt n g) = w := by
  cases w <;> cases wt <;> cases n <;> cases g <;> rfl

theorem dictGet_mkDict_weather (w wt n g : Option RefVal) :
    dictGet "weather" (mkDict w wt n g) = wt := by
  cases w <;> cases wt <;> cases n <;> cases g <;> rfl

theorem dictGet_mkDict_news (w wt n g : Option RefVal) :
    dictGet "news" (mkDict w wt n g) = n := by
  cases w <;> cases wt <;> cases n <;> cases g <;> rfl

theorem dictGet_mkDict_google (w wt n g : Option RefVal) :
    dictGet "google" (mkDict w wt n g) = g := by
  cases w <;> cases wt <;> cases n <;> cases g <;> rfl

/-- **C1 (code bug).** The aggregation step cannot deliver the claimed
placeholder behaviour for the computation lookup: on every query for which
`looks_like_math` is true — for example `"2 + 2"` — `build_context_snippet`
executes `refs["wolfram"] = wolfram_compute(user_q)`, and the name
`wolfram_compute` is defined nowhere in `app.py`, so the call raises
`NameError` for every environment (credentials present or not) and the
pipeline aborts instead of storing a placeholder. Independently, even the
defined wrapper `query_wolfram_alpha` reads `st.secrets["WOLFRAM_APP_ID"]`
before its `try` block, so a missing computation credential raises instead
of yielding a placeholder. -/
theorem build_context_snippet_nameError_on_math :
    looks_like_math "2 + 2" = true ∧
    (∀ env : Env, build_context_snippet env "2 + 2" =
      Except.error (PyErr.nameError "wolfram_compute")) ∧
    (∀ (net : String → WolframResp) (query : String),
      query_wolfram_alpha none net query =
        Except.error (PyErr.keyError "WOLFRAM_APP_ID")) := by
  refine ⟨by decide, fun env => ?_, fun net query => rfl⟩
  simp [build_context_snippet, show looks_like_math "2 + 2" = true from by decide]

/-- **C6.** The composer caps sequence values: news lists render at most
their first 3 items and general-search lists at most their first 5, so a
reference set renders identically to one whose lists are pre-truncated to
those caps; in particular 7 general-search items render as exactly the
first 5, each on its own indented line. -/
theorem render_refs_truncates_items :
    (∀ (w wt : Option RefVal) (ns gs : List String),
      render_refs (mkDict w wt (some (RefVal.l ns)) (some (RefVal.l gs))) =
        render_refs (mkDict w wt (some (RefVal.l (ns.take 3)))
          (some (RefVal.l (gs.take 5))))) ∧
    render_refs [("google", RefVal.l ["g1", "g2", "g3", "g4", "g5", "g6", "g7"])] =
      "- Google:\n  g1\n  g2\n  g3\n  g4\n  g5" := by
  constructor
  · intro w wt ns gs
    simp [render_refs, dictGet_mkDict_wolfram, dictGet_mkDict_weather,
      dictGet_mkDict_news, dictGet_mkDict_google, List.take_take]
  · rfl

/-- **C7.** The composer reads only the four known keys and emits them in
the fixed priority order wolfram (computation), weather, news, google
(general search): rendering any dict equals rendering its canonical
reordering built in that fixed order from its key lookups, so the output
is independent of insertion order; the empty dict renders as the fixed
no-references sentence. -/
theorem render_refs_fixed_order :
    (∀ d : RefDict, render_refs d =
      render_refs (mkDict (dictGet "wolfram" d) (dictGet "weather" d)
        (dictGet "news" d) (dictGet "google" d))) ∧
    render_refs [] = "(no external references)" := by
  constructor
  · intro d
    simp [render_refs, dictGet_mkDict_wolfram, dictGet_mkDict_weather,
      dictGet_mkDict_news, dictGet_mkDict_google]
  · rfl

/-- **C8.** With no chat-completion credential, `ask_openrouter` returns
the fixed missing-key string and performs zero collaborator calls; with a
credential, a collaborator failure is converted into a descriptive error
string (never propagated), and exactly one collaborator call is made. -/
theorem ask_openrouter_missing_key (sys usr : String)
    (net : String → String → Except String String) :
    ask_openrouter none net sys usr = ("❌ Missing API key: OPENROUTER_API_KEY", 0) ∧
    (∀ (k e : String), net sys usr = Except.error e →
      (ask_openrouter (some k) net sys usr).1 = "❌ OpenRouter error: " ++ e) ∧
    (∀ k : String, (ask_openrouter (some k) net sys usr).2 = 1) := by
  refine ⟨rfl, fun k e he => ?_, fun k => ?_⟩
  · simp [ask_openrouter, he]
  · cases hn : net sys usr <;> simp [ask_openrouter, hn]

/-- **C8 (witness).** Concrete instance: missing key gives the fixed
string with zero calls; an erroring collaborator gives the descriptive
error string. -/
theorem ask_openrouter_missing_key_witness :
    ask_openrouter none (fun _ _ => Except.error "boom") "sys" "usr" =
      ("❌ Missing API key: OPENROUTER_API_KEY", 0) ∧
    (ask_openrouter (some "k") (fun _ _ => Except.error "boom") "sys" "usr").1 =
      "❌ OpenRouter error: " ++ "boom" :=
  ⟨(ask_openrouter_missing_key "sys" "usr" _).1,
   (ask_openrouter_missing_key "sys" "usr" _).2.1 "k" "boom" rfl⟩

/-- **C10.** `google_cse_search` clamps the result-count parameter sent to
the provider to 1..10: the transmitted `num` is always in range, values
below 1 become 1, values above 10 become 10, in-range values pass through,
and the whole search behaves identically to one called with the clamped
count. -/
theorem google_cse_num_clamped (query : String) (num : Int) :
    1 ≤ (google_cse_params query num).num ∧
    (google_cse_params query num).num ≤ 10 ∧
    (num ≤ 1 → (google_cse_params query num).num = 1) ∧
    (10 ≤ num → (google_cse_params query num).num = 10) ∧
    (1 ≤ num → num ≤ 10 → (google_cse_params query num).num = num) ∧
    (∀ (hasKeys : Bool) (net : GoogleParams → GoogleResp),
      google_cse_search hasKeys net query num =
        google_cse_search hasKeys net query (max 1 (min num 10))) := by
  have hb1 : (1 : Int) ≤ max 1 (min num 10) := le_max_left _ _
  have hb2 : max 1 (min num 10) ≤ 10 := max_le (by norm_num) (min_le_right _ _)
  refine ⟨hb1, hb2, ?_, ?_, ?_, ?_⟩
  · intro h
    have h2 : min num 10 ≤ 1 := le_trans (min_le_left _ _) h
    exact max_eq_left h2
  · intro h
    have h2 : min num 10 = 10 := min_eq_right h
    show max 1 (min num 10) = 10
    rw [h2]; norm_num
  · intro h1 h2
    have h3 : min num 10 = num := min_eq_left h2
    show max 1 (min num 10) = num
    rw [h3]; exact max_eq_right h1
  · intro hasKeys net
    have hparams : google_cse_params query (max 1 (min num 10)) =
        google_cse_params query num := by
      unfold google_cse_params
      have h2 : min (max 1 (min num 10)) 10 = max 1 (min num 10) := min_eq_left hb2
      rw [h2, ← max_assoc, max_self]
    unfold google_cse_search
    rw [hparams]

/-- **C10 (witness).** Concrete instances of the clamp: 15 becomes 10,
−3 becomes 1, and 5 passes through. -/
theorem google_cse_num_clamped_witness :
    1 ≤ (google_cse_params "q" 15).num ∧ (google_cse_params "q" 15).num = 10 ∧
    (google_cse_params "q" (-3)).num = 1 ∧ (google_cse_params "q" 5).num = 5 :=
  ⟨(google_cse_num_clamped "q" 15).1,
   (google_cse_num_clamped "q" 15).2.2.2.1 (by norm_num),
   (google_cse_num_clamped "q" (-3)).2.2.1 (by norm_num),
   (google_cse_num_clamped "q" 5).2.2.2.2.1 (by norm_num) (by norm_num)⟩

end DebateCheck
